import Mathlib

/-!
# Real-Time-Data-Dashboard: the WebSocket relay and the dashboard merge

A shallow embedding of `server.js` (the registry of connected clients, the
connection / close / error handlers and the Redis message handler) and of
`handleMessage` in `frontend/src/App.jsx`, followed by the properties proved
about them.

Modelling conventions
* A WebSocket object is identified by a handle (`Nat`); object identity in
  JavaScript is equality of handles here.
* The JavaScript `Set` named `clients` is its list of members in insertion
  order, which is the order `Set.prototype.forEach` visits them in.
* `client.readyState` and the behaviour of `client.send` belong to the `ws`
  library, outside the repository: they are the environment `Env` of a run
  of the message handler.
* `console.log` / `console.error` calls are recorded as effects, in order,
  next to the `send` calls.
* A handler runs to completion before the next event is handled (one
  JavaScript thread); an exception that leaves a handler is recorded in the
  `thrown` field of its outcome.
* `JSON.parse` is a built-in: `handleMessage` is modelled on its result.
-/

namespace Relay

/-! ## server.js -/

/-- Identity of a WebSocket object (`ws` in the source). -/
abbrev Handle := Nat

/-- Line 12: `const REDIS_CHANNEL = 'crypto-updates'`. -/
def REDIS_CHANNEL : String := "crypto-updates"

/-- What one call `client.send(message)` of the `ws` library does, seen from
the caller: it returns and the payload reaches the client, it returns and the
payload does not reach the client (the failure is reported later, through the
`error` / `close` events of that socket), or it throws synchronously. -/
inductive SendResult where
  | delivered
  | dropped
  | throws
  deriving DecidableEq, Repr

/-- The part of the world the message handler reads: the `readyState` of each
WebSocket and the result of sending a given message to it. -/
structure Env where
  readyState : Handle → Nat
  send : Handle → String → SendResult

/-- Observable actions of the handlers, in program order. -/
inductive Effect where
  /-- Line 33: `console.log('Client connected. Total clients:', clients.size)`. -/
  | logConnected (size : Nat)
  /-- Line 37: `console.log('Client disconnected. Total clients:', clients.size)`. -/
  | logDisconnected (size : Nat)
  /-- Line 41: `console.error('WebSocket error:', error)`. -/
  | logSocketError
  /-- Line 56: the `[REDIS CONSUMED] Broadcasting ... to n clients.` line. -/
  | logBroadcast (size : Nat)
  /-- Line 60: the call `client.send(message)`, tagged with what it did. -/
  | send (client : Handle) (message : String) (result : SendResult)
  deriving DecidableEq, Repr

/-- Lines 28 and 32, `clients.add(ws)` on a JavaScript `Set`: a member
already present stays where it is, a new one goes last. -/
def setAdd (clients : List Handle) (ws : Handle) : List Handle :=
  if ws ∈ clients then clients else clients ++ [ws]

/-- Line 36, `clients.delete(ws)` on a JavaScript `Set`: removes the member
when present, does nothing otherwise; it never throws. -/
def setDelete (clients : List Handle) (ws : Handle) : List Handle :=
  clients.filter (fun c => c != ws)

/-- Result of running a handler: the registry afterwards, the effects it
performed, and the client whose `send` raised the exception that left the
handler, when one did. -/
structure Outcome where
  clients : List Handle
  effects : List Effect
  thrown : Option Handle
  deriving DecidableEq, Repr

/-- Lines 31-43, the body of `connection(ws)`: `clients.add(ws)`, one log
line, and the registration of the two listeners (which does nothing by
itself). -/
def connection (clients : List Handle) (ws : Handle) : Outcome :=
  let clients1 := setAdd clients ws
  { clients := clients1, effects := [Effect.logConnected clients1.length], thrown := none }

/-- Lines 35-38, the `close` listener of `ws`: `clients.delete(ws)` and one
log line. -/
def onClose (clients : List Handle) (ws : Handle) : Outcome :=
  let clients1 := setDelete clients ws
  { clients := clients1, effects := [Effect.logDisconnected clients1.length], thrown := none }

/-- Lines 40-42, the `error` listener of `ws`: one `console.error`. -/
def onError (clients : List Handle) ( _ws : Handle) : Outcome :=
  { clients := clients, effects := [Effect.logSocketError], thrown := none }

/-- Lines 58-62, `clients.forEach(client => ...)`: members are visited in
insertion order; a member whose `readyState` is not `1` is skipped; an
exception thrown by `client.send` is not caught, so it ends the iteration. -/
def forEachSend (env : Env) (message : String) : List Handle → List Effect × Option Handle
  | [] => ([], none)
  | client :: rest =>
    if env.readyState client = 1 then
      match env.send client message with
      | SendResult.throws => ([Effect.send client message SendResult.throws], some client)
      | result =>
        let r := forEachSend env message rest
        (Effect.send client message result :: r.1, r.2)
    else forEachSend env message rest

/-- Lines 54-64, the listener `subscriber.on('message', (channel, message) => ...)`. -/
def onMessage (env : Env) (clients : List Handle) (channel message : String) : Outcome :=
  if channel = REDIS_CHANNEL then
    let r := forEachSend env message clients
    { clients := clients, effects := Effect.logBroadcast clients.length :: r.1, thrown := r.2 }
  else
    { clients := clients, effects := [], thrown := none }

/-- The `send` calls among some effects: receiver and payload, in order. -/
def sends : List Effect → List (Handle × String)
  | [] => []
  | Effect.send c m _ :: es => (c, m) :: sends es
  | _ :: es => sends es

/-- The `send` calls among some effects whose payload reached the client. -/
def received : List Effect → List (Handle × String)
  | [] => []
  | Effect.send c m SendResult.delivered :: es => (c, m) :: received es
  | _ :: es => received es

/-- The `send` calls among some effects that failed (dropped or thrown). -/
def failedSends : List Effect → List (Handle × String)
  | [] => []
  | Effect.send _ _ SendResult.delivered :: es => failedSends es
  | Effect.send c m _ :: es => (c, m) :: failedSends es
  | _ :: es => failedSends es

/-- The members a fan-out can send to: those whose `readyState` is `1`. -/
def openMembers (env : Env) (clients : List Handle) : List Handle :=
  clients.filter (fun c => env.readyState c = 1)

/-- The events the server reacts to. A message event carries the state of
the sockets at the time it is handled. -/
inductive Event where
  | connection (ws : Handle)
  | close (ws : Handle)
  | error (ws : Handle)
  | message (env : Env) (channel : String) (message : String)

/-- One event handled by the listener registered for it. -/
def step (clients : List Handle) : Event → Outcome
  | Event.connection ws => connection clients ws
  | Event.close ws => onClose clients ws
  | Event.error ws => onError clients ws
  | Event.message env channel message => onMessage env clients channel message

/-- The registry after a sequence of events, each handled in turn. An
exception that leaves a listener changes nothing in `clients`; the events
that follow are handled from the registry as it stands. -/
def runClients (clients : List Handle) : List Event → List Handle
  | [] => clients
  | ev :: evs => runClients (step clients ev).clients evs

/-- All effects of a sequence of events, each handled in turn. -/
def runEffects (clients : List Handle) : List Event → List Effect
  | [] => []
  | ev :: evs => (step clients ev).effects ++ runEffects (step clients ev).clients evs

/-- Whether an event is the `close` event of the given socket. -/
def Event.isCloseOf (ws : Handle) : Event → Bool
  | Event.close h => h == ws
  | _ => false

/-- Whether an event is the `connection` event of the given socket. -/
def Event.isConnectionOf (ws : Handle) : Event → Bool
  | Event.connection h => h == ws
  | _ => false

/-- The payloads of the `send` calls made on one client, in order. -/
def payloadsTo (c : Handle) : List Effect → List String
  | [] => []
  | Effect.send d m _ :: es => if d = c then m :: payloadsTo c es else payloadsTo c es
  | _ :: es => payloadsTo c es

/-- The payloads of the messages of a trace that arrive on the subscribed
channel, in order of arrival. -/
def channelPayloads : List Event → List String
  | [] => []
  | Event.message _ channel message :: evs =>
    if channel = REDIS_CHANNEL then message :: channelPayloads evs else channelPayloads evs
  | _ :: evs => channelPayloads evs

/-- A small environment for examples: every socket is open and every send
delivers. -/
def envOk : Env :=
  { readyState := fun _ => 1
    send := fun _ _ => SendResult.delivered }

/-- A small environment for examples: every socket is open, the send to
socket `2` returns without delivering, every other send delivers. -/
def envDrop2 : Env :=
  { readyState := fun _ => 1
    send := fun h _ => if h = 2 then SendResult.dropped else SendResult.delivered }

/-- A small environment for examples: every socket is open, the send to
socket `1` throws, every other send delivers. -/
def envThrow1 : Env :=
  { readyState := fun _ => 1
    send := fun h _ => if h = 1 then SendResult.throws else SendResult.delivered }

/-- A small environment for examples: socket `2` is closing (`readyState`
2), every other socket is open, every send delivers. -/
def envClosing2 : Env :=
  { readyState := fun h => if h = 2 then 2 else 1
    send := fun _ _ => SendResult.delivered }

end Relay

namespace Dashboard

/-! ## frontend/src/App.jsx -/

/-- Line 9: `const INITIAL_ASSETS = ['BTC/USDT', 'ETH/USDT', 'SPX/USDT']`. -/
def INITIAL_ASSETS : List String := ["BTC/USDT", "ETH/USDT", "SPX/USDT"]

/-- A JavaScript value held in a field of an update or of a dashboard entry.
Objects and arrays are references, identified by a number. A number is
represented by an integer code: `handleMessage` copies numbers and compares
two of them with `!==`, nothing else, so only their identity matters. -/
inductive JVal where
  | undefined
  | null
  | bool (b : Bool)
  | num (n : Int)
  | str (s : String)
  | ref (id : Nat)
  deriving DecidableEq, Repr

/-- A plain JavaScript object as the map from its own property names to
their values; `none` is an absent property. -/
abbrev Obj := String → Option JVal

/-- The state `cryptoData`: an object whose properties are the per-symbol
entries. -/
abbrev CryptoData := String → Option Obj

/-- Property read `o.k`: `undefined` when the property is absent. -/
def getProp (o : Obj) (k : String) : JVal :=
  match o k with
  | some v => v
  | none => JVal.undefined

/-- Strict inequality `a !== b` on the modelled values. -/
def strictNe (a b : JVal) : Bool := a != b

/-- Line 102: `useState({})`. -/
def emptyData : CryptoData := fun _ => none

/-- Lines 108-120: the placeholder entry of one symbol. -/
def placeholder (symbol : String) : Obj := fun field =>
  if field = "symbol" then some (JVal.str symbol)
  else if field ∈ ["price", "change", "percentage", "volume", "open_24h", "high_24h",
      "low_24h", "bid", "ask"] then some (JVal.num 0)
  else if field = "flash" then some (JVal.bool false)
  else none

/-- Lines 107-122: `INITIAL_ASSETS.reduce(...)`, one placeholder entry per
tracked symbol. -/
def initialData : CryptoData := fun symbol =>
  if symbol ∈ INITIAL_ASSETS then some (placeholder symbol) else none

/-- What `JSON.parse(event.data)` gives, as far as `handleMessage` can tell
the cases apart: it throws, it returns `null`, it returns an object, or it
returns something else (a number, a string, a boolean, an array), whose
`symbol` property is `undefined`. -/
inductive Parsed where
  | syntaxError
  | null
  | other
  | object (update : Obj)

/-- Line 135: `prevData[symbol] && prevData[symbol].price !== update.price`.
An absent entry is `undefined`, which `&&` returns as it is; an entry is an
object, hence truthy. -/
def shouldFlash (prevData : CryptoData) (symbol : String) (update : Obj) : JVal :=
  match prevData symbol with
  | none => JVal.undefined
  | some entry => JVal.bool (strictNe (getProp entry "price") (getProp update "price"))

/-- Lines 139-143: `{ ...prevData[symbol], ...update, flash: shouldFlash }`.
Spreading `undefined` copies nothing. -/
def mergedEntry (prevData : CryptoData) (symbol : String) (update : Obj) : Obj := fun field =>
  if field = "flash" then some (shouldFlash prevData symbol update)
  else
    match update field with
    | some v => some v
    | none =>
      match prevData symbol with
      | some entry => entry field
      | none => none

/-- Lines 133-145, the updater passed to `setCryptoData`:
`{ ...prevData, [symbol]: { ... } }`. -/
def updater (symbol : String) (update : Obj) (prevData : CryptoData) : CryptoData := fun key =>
  if key = symbol then some (mergedEntry prevData symbol update) else prevData key

/-- Lines 127-150, `handleMessage`, as the change it makes to `cryptoData`.
The argument is the result of `JSON.parse(event.data)`. A `SyntaxError` of
the parse and the `TypeError` of destructuring `null` are caught at line 147
and leave the state alone; `INITIAL_ASSETS.includes(symbol)` holds only of a
string that is one of the three symbols. -/
def handleMessage (parsed : Parsed) (prevData : CryptoData) : CryptoData :=
  match parsed with
  | Parsed.syntaxError => prevData
  | Parsed.null => prevData
  | Parsed.other => prevData
  | Parsed.object update =>
    match update "symbol" with
    | some (JVal.str symbol) =>
      if symbol ∈ INITIAL_ASSETS then updater symbol update prevData else prevData
    | _ => prevData

/-- An update for examples: `\x7b"symbol":"BTC/USDT","price":0,"flash":true\x7d`. -/
def updateWithFlash : Obj := fun field =>
  if field = "symbol" then some (JVal.str "BTC/USDT")
  else if field = "price" then some (JVal.num 0)
  else if field = "flash" then some (JVal.bool true)
  else none

/-- An update for examples: `\x7b"symbol":"ETH/USDT","price":3100,"bid":3099\x7d`. -/
def updateEth : Obj := fun field =>
  if field = "symbol" then some (JVal.str "ETH/USDT")
  else if field = "price" then some (JVal.num 3100)
  else if field = "bid" then some (JVal.num 3099)
  else none

end Dashboard

/-! ## Sanity checks of the embedding on concrete inputs -/

namespace Relay

example : onMessage envDrop2 [1, 2, 3] REDIS_CHANNEL "tick" =
    { clients := [1, 2, 3],
      effects := [Effect.logBroadcast 3, Effect.send 1 "tick" SendResult.delivered,
        Effect.send 2 "tick" SendResult.dropped, Effect.send 3 "tick" SendResult.delivered],
      thrown := none } := by decide

example : onMessage envThrow1 [1, 2] REDIS_CHANNEL "tick" =
    { clients := [1, 2],
      effects := [Effect.logBroadcast 2, Effect.send 1 "tick" SendResult.throws],
      thrown := some 1 } := by decide

example : onMessage envClosing2 [1, 2] "other" "tick" =
    { clients := [1, 2], effects := [], thrown := none } := by decide

end Relay

namespace Dashboard

example : (handleMessage (Parsed.object updateEth) initialData "ETH/USDT").bind (fun e => e "price")
    = some (JVal.num 3100) := by decide

example : (handleMessage (Parsed.object updateEth) initialData "ETH/USDT").bind (fun e => e "flash")
    = some (JVal.bool true) := by decide

example : (handleMessage (Parsed.object updateEth) initialData "ETH/USDT").bind (fun e => e "ask")
    = some (JVal.num 0) := by decide

example : (handleMessage (Parsed.object updateWithFlash) initialData "BTC/USDT").bind
    (fun e => e "flash") = some (JVal.bool false) := by decide

end Dashboard

/-! ## Lemmas on the fan-out loop -/

namespace Relay

theorem sends_append (xs ys : List Effect) : sends (xs ++ ys) = sends xs ++ sends ys := by
  induction xs with
  | nil => rfl
  | cons e es ih => cases e <;> simp [sends, ih]

theorem sends_map_send (message : String) (f : Handle → SendResult) (cs : List Handle) :
    sends (cs.map (fun c => Effect.send c message (f c))) = cs.map (fun c => (c, message)) := by
  induction cs with
  | nil => rfl
  | cons c cs ih => simp [sends, ih]

theorem received_map_send (message : String) (f : Handle → SendResult) (cs : List Handle) :
    received (cs.map (fun c => Effect.send c message (f c)))
      = (cs.filter (fun c => f c = SendResult.delivered)).map (fun c => (c, message)) := by
  induction cs with
  | nil => rfl
  | cons c cs ih =>
    cases hc : f c <;> simp [received, ih, hc]

theorem failedSends_map_send (message : String) (f : Handle → SendResult) (cs : List Handle) :
    failedSends (cs.map (fun c => Effect.send c message (f c)))
      = (cs.filter (fun c => f c ≠ SendResult.delivered)).map (fun c => (c, message)) := by
  induction cs with
  | nil => rfl
  | cons c cs ih =>
    cases hc : f c <;> simp [failedSends, ih, hc]

theorem count_map_pair (message : String) (cs : List Handle) (h : Handle) :
    (cs.map (fun c => (c, message))).count (h, message) = cs.count h := by
  induction cs with
  | nil => rfl
  | cons c cs ih =>
    simp only [List.map_cons, List.count_cons, ih]
    by_cases hc : c = h <;> simp [hc]

/-- When no send to an open member throws, the loop visits every member and
calls `send` on exactly the open ones, in insertion order. -/
theorem forEachSend_of_no_throw (env : Env) (message : String) (clients : List Handle)
    (hno : ∀ c ∈ clients, env.readyState c = 1 → env.send c message ≠ SendResult.throws) :
    forEachSend env message clients
      = ((openMembers env clients).map (fun c => Effect.send c message (env.send c message)),
          none) := by
  induction clients with
  | nil => rfl
  | cons c cs ih =>
    have ih1 := ih (fun d hd => hno d (List.mem_cons_of_mem c hd))
    by_cases hopen : env.readyState c = 1
    · have hc := hno c (List.mem_cons_self c cs) hopen
      cases hs : env.send c message with
      | throws => exact absurd hs hc
      | delivered => simp [forEachSend, openMembers, hopen, hs] at ih1 ⊢; simp [ih1]
      | dropped => simp [forEachSend, openMembers, hopen, hs] at ih1 ⊢; simp [ih1]
    · simp [forEachSend, openMembers, hopen] at ih1 ⊢
      exact ih1

/-- Every `send` the loop performs goes to an open member of the set, with
the message it was given, and is tagged with what the environment did. -/
theorem mem_forEachSend (env : Env) (message : String) (clients : List Handle)
    (c : Handle) (m : String) (r : SendResult)
    (h : Effect.send c m r ∈ (forEachSend env message clients).1) :
    c ∈ clients ∧ env.readyState c = 1 ∧ m = message ∧ r = env.send c message := by
  induction clients with
  | nil => simp [forEachSend] at h
  | cons d ds ih =>
    by_cases hopen : env.readyState d = 1
    · cases hs : env.send d message with
      | throws =>
        simp [forEachSend, hopen, hs] at h
        obtain ⟨rfl, rfl, rfl⟩ := h
        exact ⟨List.mem_cons_self _ _, hopen, rfl, hs.symm⟩
      | delivered =>
        simp [forEachSend, hopen, hs] at h
        rcases h with ⟨rfl, rfl, rfl⟩ | h
        · exact ⟨List.mem_cons_self _ _, hopen, rfl, hs.symm⟩
        · have := ih h
          exact ⟨List.mem_cons_of_mem _ this.1, this.2⟩
      | dropped =>
        simp [forEachSend, hopen, hs] at h
        rcases h with ⟨rfl, rfl, rfl⟩ | h
        · exact ⟨List.mem_cons_self _ _, hopen, rfl, hs.symm⟩
        · have := ih h
          exact ⟨List.mem_cons_of_mem _ this.1, this.2⟩
    · simp [forEachSend, hopen] at h
      have := ih h
      exact ⟨List.mem_cons_of_mem _ this.1, this.2⟩

/-- The loop produces nothing but `send` effects. -/
theorem forEachSend_only_sends (env : Env) (message : String) (clients : List Handle)
    (e : Effect) (h : e ∈ (forEachSend env message clients).1) :
    ∃ c r, e = Effect.send c message r := by
  induction clients with
  | nil => simp [forEachSend] at h
  | cons d ds ih =>
    by_cases hopen : env.readyState d = 1
    · cases hs : env.send d message <;> simp [forEachSend, hopen, hs] at h
      · rcases h with rfl | h
        · exact ⟨d, _, rfl⟩
        · exact ih h
      · rcases h with rfl | h
        · exact ⟨d, _, rfl⟩
        · exact ih h
      · exact ⟨d, _, h⟩
    · simp [forEachSend, hopen] at h
      exact ih h

theorem mem_setAdd (clients : List Handle) (ws h : Handle) :
    h ∈ setAdd clients ws ↔ h ∈ clients ∨ h = ws := by
  unfold setAdd
  split
  · constructor
    · exact Or.inl
    · rintro (h1 | rfl)
      · exact h1
      · assumption
  · simp

theorem mem_setDelete (clients : List Handle) (ws h : Handle) :
    h ∈ setDelete clients ws ↔ h ∈ clients ∧ h ≠ ws := by
  simp [setDelete]

theorem setDelete_of_not_mem (clients : List Handle) (ws : Handle) (h : ws ∉ clients) :
    setDelete clients ws = clients := by
  unfold setDelete
  rw [List.filter_eq_self]
  intro c hc
  have : c ≠ ws := fun heq => h (heq ▸ hc)
  simpa using this

theorem not_mem_setDelete_self (clients : List Handle) (ws : Handle) :
    ws ∉ setDelete clients ws := by
  simp [setDelete]

theorem nodup_setAdd (clients : List Handle) (ws : Handle) (h : clients.Nodup) :
    (setAdd clients ws).Nodup := by
  unfold setAdd
  split
  · exact h
  · rw [List.nodup_append]
    refine ⟨h, List.nodup_singleton ws, ?_⟩
    intro a ha hb
    simp at hb
    subst hb
    contradiction

theorem nodup_setDelete (clients : List Handle) (ws : Handle) (h : clients.Nodup) :
    (setDelete clients ws).Nodup :=
  h.filter _

end Relay

/-! ## Properties of the message handler -/

namespace Relay

/-- C3. Exact fan-out when no send fails: for a client set (distinct members)
and a message on `crypto-updates`, if the send to every open member is
delivered, then the handler returns normally, its sends are the open members
in order, each with the message itself, and counting them: one send of the
received message to each member whose `readyState` is `1`, and no send with
another receiver (a member that is not open, a socket outside the set) or
another payload. -/
theorem onMessage_exact_fanout (env : Env) (clients : List Handle) (message : String)
    (hset : clients.Nodup)
    (hok : ∀ c ∈ clients, env.readyState c = 1 → env.send c message = SendResult.delivered) :
    (onMessage env clients REDIS_CHANNEL message).thrown = none
    ∧ sends (onMessage env clients REDIS_CHANNEL message).effects
        = (openMembers env clients).map (fun c => (c, message))
    ∧ ∀ (h : Handle) (payload : String),
        (sends (onMessage env clients REDIS_CHANNEL message).effects).count (h, payload)
          = if h ∈ clients ∧ env.readyState h = 1 ∧ payload = message then 1 else 0 := by
  have hno : ∀ c ∈ clients, env.readyState c = 1 → env.send c message ≠ SendResult.throws := by
    intro c hc ho
    rw [hok c hc ho]
    decide
  have hloop := forEachSend_of_no_throw env message clients hno
  have hsends : sends (onMessage env clients REDIS_CHANNEL message).effects
      = (openMembers env clients).map (fun c => (c, message)) := by
    simp only [onMessage, if_true, hloop, sends]
    exact sends_map_send message _ _
  refine ⟨by simp [onMessage, hloop], hsends, ?_⟩
  intro h payload
  rw [hsends]
  have hopenNodup : (openMembers env clients).Nodup := hset.filter _
  by_cases hp : payload = message
  · subst hp
    rw [count_map_pair]
    by_cases hm : h ∈ clients ∧ env.readyState h = 1
    · have hmem : h ∈ openMembers env clients := by
        simp [openMembers, hm.1, hm.2]
      rw [List.count_eq_one_of_mem hopenNodup hmem]
      simp [hm.1, hm.2]
    · have hmem : h ∉ openMembers env clients := by
        simpa [openMembers] using hm
      rw [List.count_eq_zero_of_not_mem hmem]
      have : ¬ (h ∈ clients ∧ env.readyState h = 1 ∧ True) := by simpa using hm
      simp only [true_and, and_true] at this ⊢
      rw [if_neg]
      simpa using hm
  · have hmem : (h, payload) ∉ (openMembers env clients).map (fun c => (c, message)) := by
      intro hin
      rw [List.mem_map] at hin
      obtain ⟨c, _, hc⟩ := hin
      exact hp (Prod.mk.inj hc).2.symm
    rw [List.count_eq_zero_of_not_mem hmem]
    simp [hp]

/-- Witness of C3 on the set `[1, 2, 3]` with socket `2` closing. -/
theorem onMessage_exact_fanout_witness :
    [1, 2, 3].Nodup
    ∧ (∀ c ∈ [1, 2, 3], envClosing2.readyState c = 1 →
        envClosing2.send c "tick" = SendResult.delivered)
    ∧ (onMessage envClosing2 [1, 2, 3] REDIS_CHANNEL "tick").thrown = none
    ∧ sends (onMessage envClosing2 [1, 2, 3] REDIS_CHANNEL "tick").effects
        = [(1, "tick"), (3, "tick")] := by
  have hset : [1, 2, 3].Nodup := by decide
  have hok : ∀ c ∈ [1, 2, 3], envClosing2.readyState c = 1 →
      envClosing2.send c "tick" = SendResult.delivered := fun _ _ _ => rfl
  have h := onMessage_exact_fanout envClosing2 [1, 2, 3] "tick" hset hok
  exact ⟨hset, hok, h.1, h.2.1.trans (by decide)⟩

/-- C4. Channel filter: on a message whose channel is not `crypto-updates`
the handler performs no effect at all (so no send), leaves the client set as
it is and returns normally. -/
theorem onMessage_other_channel (env : Env) (clients : List Handle) (channel message : String)
    (hch : channel ≠ REDIS_CHANNEL) :
    sends (onMessage env clients channel message).effects = []
    ∧ (onMessage env clients channel message).effects = []
    ∧ (onMessage env clients channel message).clients = clients
    ∧ (onMessage env clients channel message).thrown = none := by
  simp [onMessage, hch, sends]

/-- Witness of C4 on the channel `crypto-news`, with a socket whose send
would throw. -/
theorem onMessage_other_channel_witness :
    "crypto-news" ≠ REDIS_CHANNEL
    ∧ sends (onMessage envThrow1 [1, 2] "crypto-news" "tick").effects = []
    ∧ (onMessage envThrow1 [1, 2] "crypto-news" "tick").clients = [1, 2]
    ∧ (onMessage envThrow1 [1, 2] "crypto-news" "tick").thrown = none := by
  have hch : "crypto-news" ≠ REDIS_CHANNEL := by decide
  have h := onMessage_other_channel envThrow1 [1, 2] "crypto-news" "tick" hch
  exact ⟨hch, h.1, h.2.2.1, h.2.2.2⟩

/-- C7. Idempotent deregistration: running the close listener of a socket a
second time leaves the client set as the first run left it; running it for a
socket that is not a member leaves the set unchanged; the listener never
throws. -/
theorem onClose_idempotent (clients : List Handle) (ws : Handle) :
    (onClose (onClose clients ws).clients ws).clients = (onClose clients ws).clients
    ∧ (ws ∉ clients → (onClose clients ws).clients = clients)
    ∧ (onClose clients ws).thrown = none
    ∧ (onClose (onClose clients ws).clients ws).thrown = none := by
  refine ⟨?_, ?_, rfl, rfl⟩
  · simp [onClose, setDelete, List.filter_filter]
  · intro h
    exact setDelete_of_not_mem clients ws h

/-- Witness of C7: socket `2` closed twice in `[1, 2, 3]`, and socket `7`,
not a member, closed in `[1, 3]`. -/
theorem onClose_idempotent_witness :
    (onClose (onClose [1, 2, 3] 2).clients 2).clients = [1, 3]
    ∧ (onClose [1, 2, 3] 2).clients = [1, 3]
    ∧ 7 ∉ [1, 3]
    ∧ (onClose [1, 3] 7).clients = [1, 3] := by
  have h := onClose_idempotent [1, 2, 3] 2
  have h7 : 7 ∉ [1, 3] := by decide
  exact ⟨h.1.trans (by decide), by decide, h7, (onClose_idempotent [1, 3] 7).2.1 h7⟩

/-- C10. Fan-out never mutates the registry: whatever the sockets do, the
channel and the payload, the client set after the message handler is the
client set before it; over all events, the set changes by `clients.add(ws)`
in the connection handler, by `clients.delete(ws)` in the close listener,
and not at all in the error listener and the message handler. -/
theorem onMessage_clients_unchanged :
    (∀ (env : Env) (clients : List Handle) (channel message : String),
      (onMessage env clients channel message).clients = clients)
    ∧ ∀ (clients : List Handle) (ev : Event),
        (step clients ev).clients =
          match ev with
          | Event.connection ws => setAdd clients ws
          | Event.close ws => setDelete clients ws
          | Event.error _ => clients
          | Event.message _ _ _ => clients := by
  have hmsg : ∀ (env : Env) (clients : List Handle) (channel message : String),
      (onMessage env clients channel message).clients = clients := by
    intro env clients channel message
    unfold onMessage
    split <;> rfl
  refine ⟨hmsg, ?_⟩
  intro clients ev
  cases ev with
  | connection ws => rfl
  | close ws => rfl
  | error ws => rfl
  | message env channel message => exact hmsg env clients channel message

end Relay

/-! ## Send failures during a fan-out -/

namespace Relay

/-- When the first open member whose send throws is `c`, the loop sends to
the open members ahead of `c`, then to `c`, and ends there with the
exception of `c`: the members after `c` are not visited. -/
theorem forEachSend_of_first_throw (env : Env) (message : String) (pre post : List Handle)
    (c : Handle)
    (hpre : ∀ d ∈ pre, env.readyState d = 1 → env.send d message ≠ SendResult.throws)
    (hopen : env.readyState c = 1) (hthrow : env.send c message = SendResult.throws) :
    forEachSend env message (pre ++ c :: post)
      = ((openMembers env pre).map (fun d => Effect.send d message (env.send d message))
          ++ [Effect.send c message SendResult.throws], some c) := by
  induction pre with
  | nil => simp [forEachSend, openMembers, hopen, hthrow]
  | cons d ds ih =>
    have ih1 := ih (fun e he => hpre e (List.mem_cons_of_mem d he))
    by_cases hd : env.readyState d = 1
    · have hdt := hpre d (List.mem_cons_self d ds) hd
      cases hs : env.send d message with
      | throws => exact absurd hs hdt
      | delivered => simp [forEachSend, openMembers, hd, hs] at ih1 ⊢; simp [ih1]
      | dropped => simp [forEachSend, openMembers, hd, hs] at ih1 ⊢; simp [ih1]
    · simp [forEachSend, openMembers, hd] at ih1 ⊢
      exact ih1

/-- C1, counterexample. In the set `[1, 2, 3]` of open sockets, when the
send to `2` fails without throwing, socket `2` is still a member after the
handler has returned; when the send to `1` throws, the handler sends to `1`
only, not to all three, and `1` is still a member. -/
theorem onMessage_failed_send_not_deregistered :
    failedSends (onMessage envDrop2 [1, 2, 3] REDIS_CHANNEL "tick").effects = [(2, "tick")]
    ∧ 2 ∈ (onMessage envDrop2 [1, 2, 3] REDIS_CHANNEL "tick").clients
    ∧ sends (onMessage envThrow1 [1, 2, 3] REDIS_CHANNEL "tick").effects = [(1, "tick")]
    ∧ 1 ∈ (onMessage envThrow1 [1, 2, 3] REDIS_CHANNEL "tick").clients := by
  decide

/-- C1, amended. For a registry of `N` open clients and a payload on
`crypto-updates`, if the sends that fail do so without throwing, the handler
returns normally, has called `send` on the `N` members one after the other,
exactly the members whose send did not fail receive the payload
(`N - M` of them, `M` being the number of failed sends), and the client set
is what it was: the `M` failing clients are still members. -/
theorem onMessage_fanout_silent_failures (env : Env) (clients : List Handle) (message : String)
    (hopen : ∀ c ∈ clients, env.readyState c = 1)
    (hno : ∀ c ∈ clients, env.send c message ≠ SendResult.throws) :
    (onMessage env clients REDIS_CHANNEL message).thrown = none
    ∧ sends (onMessage env clients REDIS_CHANNEL message).effects
        = clients.map (fun c => (c, message))
    ∧ received (onMessage env clients REDIS_CHANNEL message).effects
        = (clients.filter (fun c => env.send c message = SendResult.delivered)).map
            (fun c => (c, message))
    ∧ failedSends (onMessage env clients REDIS_CHANNEL message).effects
        = (clients.filter (fun c => env.send c message ≠ SendResult.delivered)).map
            (fun c => (c, message))
    ∧ (received (onMessage env clients REDIS_CHANNEL message).effects).length
        + (failedSends (onMessage env clients REDIS_CHANNEL message).effects).length
        = clients.length
    ∧ (onMessage env clients REDIS_CHANNEL message).clients = clients := by
  have hloop := forEachSend_of_no_throw env message clients (fun c hc _ => hno c hc)
  have hall : openMembers env clients = clients := by
    unfold openMembers
    rw [List.filter_eq_self]
    intro c hc
    simpa using hopen c hc
  rw [hall] at hloop
  have heff : (onMessage env clients REDIS_CHANNEL message).effects
      = Effect.logBroadcast clients.length
          :: clients.map (fun c => Effect.send c message (env.send c message)) := by
    simp [onMessage, hloop]
  have hrec : received (onMessage env clients REDIS_CHANNEL message).effects
      = (clients.filter (fun c => env.send c message = SendResult.delivered)).map
          (fun c => (c, message)) := by
    rw [heff]
    simp only [received]
    exact received_map_send message (fun c => env.send c message) clients
  have hfail : failedSends (onMessage env clients REDIS_CHANNEL message).effects
      = (clients.filter (fun c => env.send c message ≠ SendResult.delivered)).map
          (fun c => (c, message)) := by
    rw [heff]
    simp only [failedSends]
    exact failedSends_map_send message (fun c => env.send c message) clients
  refine ⟨by simp [onMessage, hloop], ?_, hrec, hfail, ?_, by simp [onMessage]⟩
  · rw [heff]
    simp only [sends]
    exact sends_map_send message (fun c => env.send c message) clients
  · rw [hrec, hfail, List.length_map, List.length_map]
    have hsplit := List.length_eq_countP_add_countP
      (fun c => decide (env.send c message = SendResult.delivered)) clients
    rw [List.countP_eq_length_filter, List.countP_eq_length_filter] at hsplit
    rw [hsplit]
    congr 2
    apply List.filter_congr
    intro c _
    by_cases hc : env.send c message = SendResult.delivered <;> simp [hc]

/-- Witness of the amended C1: `[1, 2, 3]`, all open, the send to `2` fails
silently: three sends, two receptions, one failure, the set unchanged. -/
theorem onMessage_fanout_silent_failures_witness :
    (∀ c ∈ [1, 2, 3], envDrop2.readyState c = 1)
    ∧ (∀ c ∈ [1, 2, 3], envDrop2.send c "tick" ≠ SendResult.throws)
    ∧ sends (onMessage envDrop2 [1, 2, 3] REDIS_CHANNEL "tick").effects
        = [(1, "tick"), (2, "tick"), (3, "tick")]
    ∧ received (onMessage envDrop2 [1, 2, 3] REDIS_CHANNEL "tick").effects
        = [(1, "tick"), (3, "tick")]
    ∧ (onMessage envDrop2 [1, 2, 3] REDIS_CHANNEL "tick").clients = [1, 2, 3] := by
  have hopen : ∀ c ∈ [1, 2, 3], envDrop2.readyState c = 1 := fun _ _ => rfl
  have hno : ∀ c ∈ [1, 2, 3], envDrop2.send c "tick" ≠ SendResult.throws := by decide
  have h := onMessage_fanout_silent_failures envDrop2 [1, 2, 3] "tick" hopen hno
  exact ⟨hopen, hno, h.2.1.trans (by decide), h.2.2.1.trans (by decide), h.2.2.2.2.2⟩

/-- C2, counterexample. In the set `[1, 2]` of open sockets, when the send to
`1` throws, the exception leaves the handler and socket `2`, open and a
member, is not sent to. -/
theorem onMessage_throw_escapes :
    (onMessage envThrow1 [1, 2] REDIS_CHANNEL "tick").thrown = some 1
    ∧ 2 ∈ [1, 2] ∧ envThrow1.readyState 2 = 1
    ∧ (2, "tick") ∉ sends (onMessage envThrow1 [1, 2] REDIS_CHANNEL "tick").effects := by
  decide

/-- C2, amended. For every registry state, channel and payload: when the
sends that fail do so without throwing, the handler returns normally and, on
`crypto-updates`, every open member is sent the payload, whatever happened to
the sends to the others. An exception thrown by `client.send` is not caught:
when `c` is the first open member whose send throws, the handler has sent to
the open members ahead of `c` and to `c`, and ends with that exception. -/
theorem onMessage_failure_isolation :
    (∀ (env : Env) (clients : List Handle) (channel message : String),
      (∀ c ∈ clients, env.readyState c = 1 → env.send c message ≠ SendResult.throws) →
        (onMessage env clients channel message).thrown = none
        ∧ (channel = REDIS_CHANNEL → ∀ c ∈ clients, env.readyState c = 1 →
            (c, message) ∈ sends (onMessage env clients channel message).effects))
    ∧ (∀ (env : Env) (pre post : List Handle) (c : Handle) (message : String),
        (∀ d ∈ pre, env.readyState d = 1 → env.send d message ≠ SendResult.throws) →
        env.readyState c = 1 → env.send c message = SendResult.throws →
          (onMessage env (pre ++ c :: post) REDIS_CHANNEL message).thrown = some c
          ∧ sends (onMessage env (pre ++ c :: post) REDIS_CHANNEL message).effects
              = (openMembers env pre).map (fun d => (d, message)) ++ [(c, message)]) := by
  constructor
  · intro env clients channel message hno
    have hloop := forEachSend_of_no_throw env message clients hno
    constructor
    · unfold onMessage
      split
      · simp [hloop]
      · rfl
    · intro hch c hc hopen
      subst hch
      simp only [onMessage, if_true, hloop, sends]
      rw [sends_map_send message (fun c => env.send c message)]
      apply List.mem_map.mpr
      exact ⟨c, by simp [openMembers, hc, hopen], rfl⟩
  · intro env pre post c message hpre hopen hthrow
    have hloop := forEachSend_of_first_throw env message pre post c hpre hopen hthrow
    constructor
    · simp [onMessage, hloop]
    · simp only [onMessage, if_true, hloop, sends, sends_append]
      rw [sends_map_send message (fun c => env.send c message)]

/-- Witness of the amended C2: with a silent failure of the send to `2` in
`[1, 2, 3]` no exception leaves the handler and `3` is sent to; with a
throwing send to `1` in `[1, 2]` the exception of `1` leaves the handler. -/
theorem onMessage_failure_isolation_witness :
    (∀ c ∈ [1, 2, 3], envDrop2.readyState c = 1 →
      envDrop2.send c "tick" ≠ SendResult.throws)
    ∧ (onMessage envDrop2 [1, 2, 3] REDIS_CHANNEL "tick").thrown = none
    ∧ (3, "tick") ∈ sends (onMessage envDrop2 [1, 2, 3] REDIS_CHANNEL "tick").effects
    ∧ (onMessage envThrow1 ([] ++ 1 :: [2]) REDIS_CHANNEL "tick").thrown = some 1 := by
  have hno : ∀ c ∈ [1, 2, 3], envDrop2.readyState c = 1 →
      envDrop2.send c "tick" ≠ SendResult.throws := by decide
  have h := onMessage_failure_isolation.1 envDrop2 [1, 2, 3] REDIS_CHANNEL "tick" hno
  have h2 := onMessage_failure_isolation.2 envThrow1 [] [2] 1 "tick"
    (by simp) rfl rfl
  exact ⟨hno, h.1, h.2 rfl 3 (by decide) rfl, h2.1⟩

end Relay

/-! ## Traces of events -/

namespace Relay

theorem onMessage_clients (env : Env) (clients : List Handle) (channel message : String) :
    (onMessage env clients channel message).clients = clients := by
  unfold onMessage
  split <;> rfl

theorem step_clients_nodup (clients : List Handle) (ev : Event) (h : clients.Nodup) :
    (step clients ev).clients.Nodup := by
  cases ev with
  | connection ws => exact nodup_setAdd clients ws h
  | close ws => exact nodup_setDelete clients ws h
  | error ws => exact h
  | message env channel message =>
    show (onMessage env clients channel message).clients.Nodup
    rw [onMessage_clients]
    exact h

/-- Membership after one event, for a socket whose `close` event it is not:
the socket is a member afterwards exactly when it was one before or the
event is its `connection` event. -/
theorem mem_step_clients (clients : List Handle) (ev : Event) (h : Handle)
    (hnc : ev.isCloseOf h = false) :
    h ∈ (step clients ev).clients ↔ h ∈ clients ∨ ev.isConnectionOf h = true := by
  cases ev with
  | connection ws =>
    show h ∈ setAdd clients ws ↔ _
    rw [mem_setAdd]
    have hsym : h = ws ↔ ws = h := eq_comm
    simp only [Event.isConnectionOf, beq_iff_eq, hsym]
  | close ws =>
    show h ∈ setDelete clients ws ↔ _
    rw [mem_setDelete]
    have hne : ws ≠ h := by simpa [Event.isCloseOf] using hnc
    simp [Event.isConnectionOf, Ne.symm hne]
  | error ws => simp [step, onError, Event.isConnectionOf]
  | message env channel message =>
    show h ∈ (onMessage env clients channel message).clients ↔ _
    rw [onMessage_clients]
    simp [Event.isConnectionOf]

/-- The `close` event of a socket removes it from the set. -/
theorem not_mem_step_close (clients : List Handle) (ev : Event) (h : Handle)
    (hc : ev.isCloseOf h = true) : h ∉ (step clients ev).clients := by
  cases ev with
  | close ws =>
    have hws : ws = h := by simpa [Event.isCloseOf] using hc
    subst hws
    exact not_mem_setDelete_self clients ws
  | connection ws => simp [Event.isCloseOf] at hc
  | error ws => simp [Event.isCloseOf] at hc
  | message env channel message => simp [Event.isCloseOf] at hc

theorem isConnectionOf_iff (ev : Event) (h : Handle) :
    ev.isConnectionOf h = true ↔ ev = Event.connection h := by
  cases ev <;> simp [Event.isConnectionOf]

/-- Membership after a trace: a socket is in the set exactly when it was in
the starting set and the trace holds no `close` event of it, or the trace
holds a `connection` event of it with no `close` event of it afterwards. -/
theorem mem_runClients (evs : List Event) : ∀ (clients : List Handle) (h : Handle),
    h ∈ runClients clients evs ↔
      (h ∈ clients ∧ ∀ ev ∈ evs, ev.isCloseOf h = false)
      ∨ ∃ pre post, evs = pre ++ Event.connection h :: post
          ∧ ∀ ev ∈ post, ev.isCloseOf h = false := by
  induction evs with
  | nil =>
    intro clients h
    simp [runClients]
  | cons ev evs ih =>
    intro clients h
    show h ∈ runClients (step clients ev).clients evs ↔ _
    rw [ih]
    constructor
    · rintro (⟨hm, hrest⟩ | ⟨pre, post, rfl, hrest⟩)
      · cases hc : ev.isCloseOf h with
        | true => exact absurd hm (not_mem_step_close clients ev h hc)
        | false =>
          rcases (mem_step_clients clients ev h hc).1 hm with h1 | h1
          · left
            refine ⟨h1, ?_⟩
            intro e he
            rcases List.mem_cons.1 he with rfl | he
            · exact hc
            · exact hrest e he
          · right
            rw [isConnectionOf_iff] at h1
            exact ⟨[], evs, by simp [h1], hrest⟩
      · right
        exact ⟨ev :: pre, post, rfl, hrest⟩
    · rintro (⟨hm, hall⟩ | ⟨pre, post, heq, hpost⟩)
      · left
        have hc := hall ev (List.mem_cons_self ev evs)
        exact ⟨(mem_step_clients clients ev h hc).2 (Or.inl hm),
          fun e he => hall e (List.mem_cons_of_mem ev he)⟩
      · cases pre with
        | nil =>
          simp only [List.nil_append, List.cons.injEq] at heq
          obtain ⟨rfl, rfl⟩ := heq
          left
          exact ⟨(mem_setAdd clients h h).2 (Or.inr rfl), hpost⟩
        | cons e pre =>
          simp only [List.cons_append, List.cons.injEq] at heq
          obtain ⟨rfl, rfl⟩ := heq
          right
          exact ⟨pre, post, rfl, hpost⟩

/-- C6, counterexample. After the connection of socket `1` and a message on
`crypto-updates` whose send to `1` throws, socket `1` has been observed to
fail in a send and is still in the client set; the same after a send to `2`
that fails silently. -/
theorem member_after_failed_send :
    failedSends (runEffects [] [Event.connection 1,
        Event.message envThrow1 REDIS_CHANNEL "tick"]) = [(1, "tick")]
    ∧ 1 ∈ runClients [] [Event.connection 1, Event.message envThrow1 REDIS_CHANNEL "tick"]
    ∧ failedSends (runEffects [] [Event.connection 2,
        Event.message envDrop2 REDIS_CHANNEL "tick"]) = [(2, "tick")]
    ∧ 2 ∈ runClients [] [Event.connection 2, Event.message envDrop2 REDIS_CHANNEL "tick"] := by
  decide

/-- C6, amended. In every state reached from the empty registry by
connection, close, error and channel-message events, a handle is in the
client set if and only if a connection event of it was handled and no close
event of it has been handled since; failed sends play no part. -/
theorem member_iff_connected_not_closed (evs : List Event) (h : Handle) :
    h ∈ runClients [] evs ↔
      ∃ pre post, evs = pre ++ Event.connection h :: post
        ∧ ∀ ev ∈ post, ev.isCloseOf h = false := by
  rw [mem_runClients]
  simp

end Relay

/-! ## Order of delivery to one client -/

namespace Relay

theorem payloadsTo_append (c : Handle) (xs ys : List Effect) :
    payloadsTo c (xs ++ ys) = payloadsTo c xs ++ payloadsTo c ys := by
  induction xs with
  | nil => rfl
  | cons e es ih =>
    cases e with
    | send d m r =>
      by_cases hd : d = c <;> simp [payloadsTo, hd, ih]
    | logConnected n => simp [payloadsTo, ih]
    | logDisconnected n => simp [payloadsTo, ih]
    | logSocketError => simp [payloadsTo, ih]
    | logBroadcast n => simp [payloadsTo, ih]

/-- Sending one message down a list of sockets reaches `c` once for each
occurrence of `c` in the list. -/
theorem payloadsTo_map_send (c : Handle) (message : String) (f : Handle → SendResult)
    (cs : List Handle) :
    payloadsTo c (cs.map (fun d => Effect.send d message (f d)))
      = List.replicate (cs.count c) message := by
  induction cs with
  | nil => rfl
  | cons d ds ih =>
    by_cases hd : d = c
    · subst hd
      simp [payloadsTo, ih, List.replicate_succ]
    · simp [payloadsTo, ih, hd, List.count_cons]

theorem count_openMembers (env : Env) (clients : List Handle) (c : Handle)
    (hset : clients.Nodup) (hmem : c ∈ clients) (hopen : env.readyState c = 1) :
    (openMembers env clients).count c = 1 := by
  apply List.count_eq_one_of_mem (hset.filter _)
  simp [openMembers, hmem, hopen]

/-- One message on the subscribed channel, handled while `c` is an open
member and no send to another open socket throws, is sent to `c` exactly
once. -/
theorem payloadsTo_onMessage (env : Env) (clients : List Handle) (message : String)
    (c : Handle) (hset : clients.Nodup) (hmem : c ∈ clients) (hopen : env.readyState c = 1)
    (hno : ∀ h, h ≠ c → env.readyState h = 1 → env.send h message ≠ SendResult.throws) :
    payloadsTo c (onMessage env clients REDIS_CHANNEL message).effects = [message] := by
  by_cases hthrow : env.send c message = SendResult.throws
  · obtain ⟨pre, post, rfl⟩ := List.append_of_mem hmem
    have hcpre : c ∉ pre := by
      intro hin
      have := List.nodup_append.1 hset
      exact this.2.2 hin (List.mem_cons_self c post)
    have hpre : ∀ d ∈ pre, env.readyState d = 1 → env.send d message ≠ SendResult.throws := by
      intro d hd ho
      exact hno d (fun heq => hcpre (heq ▸ hd)) ho
    have hloop := forEachSend_of_first_throw env message pre post c hpre hopen hthrow
    have hcount : (openMembers env pre).count c = 0 := by
      apply List.count_eq_zero_of_not_mem
      intro hin
      exact hcpre (List.mem_of_mem_filter hin)
    simp only [onMessage, if_true, hloop, payloadsTo, payloadsTo_append]
    rw [payloadsTo_map_send c message (fun d => env.send d message), hcount]
    simp [payloadsTo]
  · have hall : ∀ d ∈ clients, env.readyState d = 1 →
        env.send d message ≠ SendResult.throws := by
      intro d _ ho
      by_cases hdc : d = c
      · rw [hdc]; exact hthrow
      · exact hno d hdc ho
    have hloop := forEachSend_of_no_throw env message clients hall
    simp only [onMessage, if_true, hloop, payloadsTo]
    rw [payloadsTo_map_send c message (fun d => env.send d message),
      count_openMembers env clients c hset hmem hopen]
    rfl

/-- C5, counterexample. In the set `[1, 2]`, with socket `2` registered and
open throughout, the payloads `P1` then `P2` arrive on `crypto-updates`; the
send of `P2` to socket `1` throws. Socket `2` is sent `P1` only: `P2` is
dropped for it. -/
theorem payload_dropped_after_throw :
    channelPayloads [Event.message envOk REDIS_CHANNEL "P1",
        Event.message envThrow1 REDIS_CHANNEL "P2"] = ["P1", "P2"]
    ∧ envOk.readyState 2 = 1 ∧ envThrow1.readyState 2 = 1
    ∧ 2 ∈ runClients [1, 2] [Event.message envOk REDIS_CHANNEL "P1",
        Event.message envThrow1 REDIS_CHANNEL "P2"]
    ∧ payloadsTo 2 (runEffects [1, 2] [Event.message envOk REDIS_CHANNEL "P1",
        Event.message envThrow1 REDIS_CHANNEL "P2"]) = ["P1"] := by
  decide

/-- C5, amended. Over any trace of events handled in turn from a client set
(distinct members) that holds `c`, if the trace has no close event of `c`,
`c` is open at each message and no send to another open socket throws, then
the payloads sent to `c` are exactly the payloads that arrived on
`crypto-updates`, in their order of arrival, each once. -/
theorem payloads_in_order (evs : List Event) : ∀ (clients : List Handle) (c : Handle),
    clients.Nodup → c ∈ clients →
    (∀ ev ∈ evs, ev.isCloseOf c = false) →
    (∀ env channel message, Event.message env channel message ∈ evs →
      env.readyState c = 1) →
    (∀ env channel message, Event.message env channel message ∈ evs →
      ∀ h, h ≠ c → env.readyState h = 1 → env.send h message ≠ SendResult.throws) →
    payloadsTo c (runEffects clients evs) = channelPayloads evs := by
  induction evs with
  | nil => intros; rfl
  | cons ev evs ih =>
    intro clients c hset hmem hstay hopen hno
    have hc := hstay ev (List.mem_cons_self ev evs)
    have hrest := ih (step clients ev).clients c (step_clients_nodup clients ev hset)
      ((mem_step_clients clients ev c hc).2 (Or.inl hmem))
      (fun e he => hstay e (List.mem_cons_of_mem ev he))
      (fun env ch m he => hopen env ch m (List.mem_cons_of_mem ev he))
      (fun env ch m he => hno env ch m (List.mem_cons_of_mem ev he))
    show payloadsTo c ((step clients ev).effects ++ runEffects (step clients ev).clients evs) = _
    rw [payloadsTo_append, hrest]
    cases ev with
    | connection ws => rfl
    | close ws => rfl
    | error ws => rfl
    | message env channel message =>
      by_cases hch : channel = REDIS_CHANNEL
      · subst hch
        have h1 := payloadsTo_onMessage env clients message c hset hmem
          (hopen env _ message (List.mem_cons_self _ _))
          (hno env _ message (List.mem_cons_self _ _))
        simp only [step, h1, channelPayloads, if_true]
        rfl
      · simp [step, onMessage, hch, channelPayloads, payloadsTo]

/-- Witness of the amended C5: socket `2` in `[1, 2]`, a newcomer `3` joins
between the payloads `P1` and `P2`, a message on another channel is ignored,
and the send to `2` itself fails silently: `2` is sent `P1`, `P2` in order. -/
theorem payloads_in_order_witness :
    payloadsTo 2 (runEffects [1, 2] [Event.message envDrop2 REDIS_CHANNEL "P1",
        Event.connection 3, Event.message envOk "other" "X",
        Event.message envOk REDIS_CHANNEL "P2"]) = ["P1", "P2"] := by
  have h := payloads_in_order [Event.message envDrop2 REDIS_CHANNEL "P1",
      Event.connection 3, Event.message envOk "other" "X",
      Event.message envOk REDIS_CHANNEL "P2"] [1, 2] 2 (by decide) (by decide)
    (by
      intro ev hev
      simp only [List.mem_cons, List.mem_singleton, List.not_mem_nil, or_false] at hev
      rcases hev with rfl | rfl | rfl | rfl <;> rfl)
    (by
      intro env channel message hev
      simp only [List.mem_cons, List.mem_singleton, List.not_mem_nil, or_false] at hev
      rcases hev with hev | hev | hev | hev
      · injection hev with h1; subst h1; rfl
      · cases hev
      · injection hev with h1; subst h1; rfl
      · injection hev with h1; subst h1; rfl)
    (by
      intro env channel message hev h _ _
      simp only [List.mem_cons, List.mem_singleton, List.not_mem_nil, or_false] at hev
      rcases hev with hev | hev | hev | hev
      · injection hev with h1; subst h1
        show (if h = 2 then SendResult.dropped else SendResult.delivered) ≠ SendResult.throws
        split <;> decide
      · cases hev
      · injection hev with h1; subst h1; show SendResult.delivered ≠ SendResult.throws; decide
      · injection hev with h1; subst h1; show SendResult.delivered ≠ SendResult.throws; decide)
  exact h.trans (by decide)

end Relay

/-! ## The delivery window of a client -/

namespace Relay

/-- The sends of a fan-out over a single open member. -/
theorem sends_onMessage_singleton (env : Env) (b : Handle) (message : String)
    (hopen : env.readyState b = 1) :
    sends (onMessage env [b] REDIS_CHANNEL message).effects = [(b, message)] := by
  cases hs : env.send b message <;> simp [onMessage, forEachSend, hopen, hs, sends]

/-- C8. Delivery window: in every trace handled from the empty registry, a
`send` to a client happens only while handling a message of `crypto-updates`,
carries that message, and the client has a connection event earlier in the
trace with no close event of it in between. In particular the connection
handler sends nothing; and once member `A` of a two-client registry of `A`
and `B` (with `B` open) closes, the registry has size 1 and the next payload
is sent to `B` alone. -/
theorem delivery_window :
    (∀ (pre : List Event) (ev : Event) (h : Handle) (payload : String) (r : SendResult),
      Effect.send h payload r ∈ (step (runClients [] pre) ev).effects →
        (∃ env, ev = Event.message env REDIS_CHANNEL payload ∧ env.readyState h = 1)
        ∧ ∃ p1 p2, pre = p1 ++ Event.connection h :: p2
            ∧ ∀ e ∈ p2, e.isCloseOf h = false)
    ∧ (∀ (clients : List Handle) (ws : Handle), sends (connection clients ws).effects = [])
    ∧ (∀ (env : Env) (a b : Handle) (message : String) (clients : List Handle),
        a ≠ b → env.readyState b = 1 → (clients = [a, b] ∨ clients = [b, a]) →
          clients.length = 2
          ∧ (onClose clients a).clients = [b]
          ∧ (onClose clients a).clients.length = 1
          ∧ sends (onMessage env (onClose clients a).clients REDIS_CHANNEL message).effects
              = [(b, message)]) := by
  refine ⟨?_, ?_, ?_⟩
  · intro pre ev h payload r hmem
    cases ev with
    | connection ws => simp [step, connection] at hmem
    | close ws => simp [step, onClose] at hmem
    | error ws => simp [step, onError] at hmem
    | message env channel message =>
      by_cases hch : channel = REDIS_CHANNEL
      · subst hch
        simp only [step, onMessage, if_true, List.mem_cons] at hmem
        rcases hmem with hlog | hloop
        · cases hlog
        · obtain ⟨hin, hopen, hpay, _⟩ :=
            mem_forEachSend env message (runClients [] pre) h payload r hloop
          subst hpay
          refine ⟨⟨env, rfl, hopen⟩, ?_⟩
          have := (mem_runClients pre [] h).1 hin
          simpa using this
      · simp [step, onMessage, hch] at hmem
  · intro clients ws
    rfl
  · intro env a b message clients hab hopen hcl
    have hba : b ≠ a := Ne.symm hab
    have hdel : (onClose clients a).clients = [b] := by
      rcases hcl with rfl | rfl <;> simp [onClose, setDelete, hba]
    refine ⟨?_, hdel, ?_, ?_⟩
    · rcases hcl with rfl | rfl <;> rfl
    · rw [hdel]; rfl
    · rw [hdel]
      exact sends_onMessage_singleton env b message hopen

/-- Witness of C8, the mid-stream disconnect: clients `1` and `2` connect,
`U1` is published, `1` closes, `U2` is published. The send of `U2` to `2`
lies in the window of `2`; the registry `[1, 2]` shrinks to `[2]` and `U2`
goes to `2` alone; over the whole trace `1` is sent `U1` only. -/
theorem delivery_window_witness :
    (∃ p1 p2, [Event.connection 1, Event.connection 2,
        Event.message envOk REDIS_CHANNEL "U1", Event.close 1]
          = p1 ++ Event.connection 2 :: p2 ∧ ∀ e ∈ p2, e.isCloseOf 2 = false)
    ∧ (onClose [1, 2] 1).clients = [2]
    ∧ sends (onMessage envOk (onClose [1, 2] 1).clients REDIS_CHANNEL "U2").effects
        = [(2, "U2")]
    ∧ sends (runEffects [] [Event.connection 1, Event.connection 2,
        Event.message envOk REDIS_CHANNEL "U1", Event.close 1,
        Event.message envOk REDIS_CHANNEL "U2"])
        = [(1, "U1"), (2, "U1"), (2, "U2")] := by
  have h1 := delivery_window.1 [Event.connection 1, Event.connection 2,
      Event.message envOk REDIS_CHANNEL "U1", Event.close 1]
    (Event.message envOk REDIS_CHANNEL "U2") 2 "U2" SendResult.delivered (by decide)
  have h3 := delivery_window.2.2 envOk 1 2 "U2" [1, 2] (by decide) rfl (Or.inl rfl)
  exact ⟨h1.2, h3.2.1, h3.2.2.2, by decide⟩

end Relay

/-! ## The dashboard merge -/

namespace Dashboard

/-- C9, counterexample. The update `symbol: BTC/USDT, price: 0, flash: true`
is for a tracked asset and carries a `flash` field; merged onto the
placeholder state (price `0`), the entry of `BTC/USDT` has `flash` equal to
`false`, not to the value `true` of the update. -/
theorem flash_of_update_overwritten :
    updateWithFlash "symbol" = some (JVal.str "BTC/USDT")
    ∧ "BTC/USDT" ∈ INITIAL_ASSETS
    ∧ updateWithFlash "flash" = some (JVal.bool true)
    ∧ (handleMessage (Parsed.object updateWithFlash) initialData "BTC/USDT").bind
        (fun entry => entry "flash") = some (JVal.bool false) := by
  decide

/-- C9, amended. For every previous state and every parsed update whose
symbol is a tracked asset, `handleMessage` yields a state whose entry for
that symbol has every field of the update other than `flash` set to the
value of the update, every field absent from the update other than `flash`
equal to its previous value for that symbol (absent when there was no
entry), and `flash` set to the value computed at line 135, whatever the
update carries; the entries of all other symbols are unchanged. For a parsed
value whose symbol is not a tracked asset, and when the parse or the
destructuring throws, the state is unchanged. -/
theorem handleMessage_partial_merge (prevData : CryptoData) :
    (∀ (update : Obj) (symbol : String),
      update "symbol" = some (JVal.str symbol) → symbol ∈ INITIAL_ASSETS →
        ∃ entry, handleMessage (Parsed.object update) prevData symbol = some entry
          ∧ (∀ field v, field ≠ "flash" → update field = some v → entry field = some v)
          ∧ (∀ field, field ≠ "flash" → update field = none →
              entry field = (prevData symbol).bind (fun previous => previous field))
          ∧ entry "flash" = some (shouldFlash prevData symbol update)
          ∧ ∀ other, other ≠ symbol →
              handleMessage (Parsed.object update) prevData other = prevData other)
    ∧ (∀ (update : Obj),
        (∀ symbol ∈ INITIAL_ASSETS, update "symbol" ≠ some (JVal.str symbol)) →
          handleMessage (Parsed.object update) prevData = prevData)
    ∧ handleMessage Parsed.other prevData = prevData
    ∧ handleMessage Parsed.null prevData = prevData
    ∧ handleMessage Parsed.syntaxError prevData = prevData := by
  refine ⟨?_, ?_, rfl, rfl, rfl⟩
  · intro update symbol hs ht
    have hstate : handleMessage (Parsed.object update) prevData
        = updater symbol update prevData := by
      simp only [handleMessage, hs, ht, if_true]
    refine ⟨mergedEntry prevData symbol update, ?_, ?_, ?_, ?_, ?_⟩
    · rw [hstate]
      simp [updater]
    · intro field v hf hu
      simp [mergedEntry, hf, hu]
    · intro field hf hu
      cases hp : prevData symbol <;> simp [mergedEntry, hf, hu, hp]
    · simp [mergedEntry]
    · intro other ho
      rw [hstate]
      simp [updater, ho]
  · intro update hnot
    simp only [handleMessage]
    split
    · rename_i symbol heq
      split
      · rename_i hin
        exact absurd heq (hnot symbol hin)
      · rfl
    · rfl

/-- Witness of the amended C9: the update `symbol: ETH/USDT, price: 3100,
bid: 3099` merged onto the placeholder state sets `price` and `bid`, keeps
`ask`, and leaves the entry of `BTC/USDT` alone. -/
theorem handleMessage_partial_merge_witness :
    updateEth "symbol" = some (JVal.str "ETH/USDT") ∧ "ETH/USDT" ∈ INITIAL_ASSETS
    ∧ ∃ entry, handleMessage (Parsed.object updateEth) initialData "ETH/USDT" = some entry
        ∧ entry "price" = some (JVal.num 3100)
        ∧ entry "bid" = some (JVal.num 3099)
        ∧ entry "ask" = some (JVal.num 0)
        ∧ handleMessage (Parsed.object updateEth) initialData "BTC/USDT"
            = initialData "BTC/USDT" := by
  have hs : updateEth "symbol" = some (JVal.str "ETH/USDT") := by decide
  have ht : "ETH/USDT" ∈ INITIAL_ASSETS := by decide
  obtain ⟨entry, he, hset, hkeep, _, hother⟩ :=
    (handleMessage_partial_merge initialData).1 updateEth "ETH/USDT" hs ht
  refine ⟨hs, ht, entry, he, ?_, ?_, ?_, ?_⟩
  · exact hset "price" (JVal.num 3100) (by decide) (by decide)
  · exact hset "bid" (JVal.num 3099) (by decide) (by decide)
  · rw [hkeep "ask" (by decide) (by decide)]
    decide
  · exact hother "BTC/USDT" (by decide)

end Dashboard
